import Mathlib

/-!
Verification development for the Cello/Enzo-E block-communication and
cycle-synchronization protocol implemented in `src/Cello/comm_CommBlock.cpp`.

The pure topology, boundary, quorum-counting and refresh computations are
embedded directly from the source.  The per-cycle handler loop
(`prepare` / `p_output` / `p_compute` → `compute` / `refresh` / `x_refresh`)
is embedded as an event-driven transition system; the pieces of that loop
that live outside the given sources (the Charm++ `Sync` counter, the
`SimulationCharm` output glue between the reduction callback and
`p_compute`, and the program startup) are modelled from the specification
and marked as such in their doc comments.
-/

/-- Axis of the 3-D block array, matching `axis_x`, `axis_y`, `axis_z`. -/
inductive Axis : Type
  | x
  | y
  | z
  deriving DecidableEq, Repr

/-- Face selector, matching `face_lower` / `face_upper`. -/
inductive Face : Type
  | lower
  | upper
  deriving DecidableEq, Repr

/-- Static per-block inputs of the protocol: the block's index `ib*` and the
domain extents `nb*` (from `index_` / `size_`), the local field cell counts
`n*` (from `block_->field_block()->size`), the global periodicity flag
(`boundary->is_periodic()`), and the refresh-class switches
(`field_descr->refresh_face(i)`; index 2 gates faces, 1 edges, 0 corners). -/
structure BlockConfig where
  ibx : ℕ
  iby : ℕ
  ibz : ℕ
  nbx : ℕ
  nby : ℕ
  nbz : ℕ
  nx : ℕ
  ny : ℕ
  nz : ℕ
  periodic : Bool
  refresh_face : ℕ → Bool

/-- Cell count of the block along an axis (`field_block()->size`). -/
def cell_count (b : BlockConfig) : Axis → ℕ
  | Axis.x => b.nx
  | Axis.y => b.ny
  | Axis.z => b.nz

/-- Block index along an axis (`index_[i]`). -/
def block_index (b : BlockConfig) : Axis → ℕ
  | Axis.x => b.ibx
  | Axis.y => b.iby
  | Axis.z => b.ibz

/-- Domain extent (number of blocks) along an axis (`size_[i]`). -/
def block_extent (b : BlockConfig) : Axis → ℕ
  | Axis.x => b.nbx
  | Axis.y => b.nby
  | Axis.z => b.nbz

/-- Transcribes `CommBlock::is_on_boundary`: the lower face is a domain
boundary iff the index is `0`, the upper face iff the index is `size - 1`. -/
def is_on_boundary (b : BlockConfig) (a : Axis) (f : Face) : Bool :=
  match f with
  | Face.lower => block_index b a == 0
  | Face.upper => block_index b a == block_extent b a - 1

/-- Transcribes the per-direction communication flags of
`CommBlock::determine_boundary_`: `fxm = fxp = (nx > 1)` and likewise for
`y` and `z` — an axis with a single cell is never communicated. -/
def determine_boundary_flag (b : BlockConfig) (a : Axis) : Bool :=
  decide (1 < cell_count b a)

/-- Combined per-face mask used by both `CommBlock::refresh` and
`CommBlock::count_refresh_`:
`fxm = (nx > 1) && (periodic || ! is_boundary[axis_x][face_lower])` etc. -/
def face_mask (b : BlockConfig) (a : Axis) (f : Face) : Bool :=
  determine_boundary_flag b a && (b.periodic || ! is_on_boundary b a f)

/-- Transcribes the list of `boundary->enforce(field_descr,this,face,axis)`
calls made by `CommBlock::update_boundary_`, in source order.  Note the
source gates each call only on the `determine_boundary_` flag (cell count
greater than 1) and `is_boundary`; periodicity is not consulted here. -/
def update_boundary_enforce (b : BlockConfig) : List (Face × Axis) :=
  (if determine_boundary_flag b Axis.x && is_on_boundary b Axis.x Face.lower
    then [(Face.lower, Axis.x)] else []) ++
  (if determine_boundary_flag b Axis.x && is_on_boundary b Axis.x Face.upper
    then [(Face.upper, Axis.x)] else []) ++
  (if determine_boundary_flag b Axis.y && is_on_boundary b Axis.y Face.lower
    then [(Face.lower, Axis.y)] else []) ++
  (if determine_boundary_flag b Axis.y && is_on_boundary b Axis.y Face.upper
    then [(Face.upper, Axis.y)] else []) ++
  (if determine_boundary_flag b Axis.z && is_on_boundary b Axis.z Face.lower
    then [(Face.lower, Axis.z)] else []) ++
  (if determine_boundary_flag b Axis.z && is_on_boundary b Axis.z Face.upper
    then [(Face.upper, Axis.z)] else [])

/-- Reading of claim C5's specification sentence, for comparison with
`update_boundary_enforce`: enforce exactly on faces classified as
domain-boundary and not periodic. -/
def update_boundary_spec (b : BlockConfig) : List (Face × Axis) :=
  (if is_on_boundary b Axis.x Face.lower && ! b.periodic
    then [(Face.lower, Axis.x)] else []) ++
  (if is_on_boundary b Axis.x Face.upper && ! b.periodic
    then [(Face.upper, Axis.x)] else []) ++
  (if is_on_boundary b Axis.y Face.lower && ! b.periodic
    then [(Face.lower, Axis.y)] else []) ++
  (if is_on_boundary b Axis.y Face.upper && ! b.periodic
    then [(Face.upper, Axis.y)] else []) ++
  (if is_on_boundary b Axis.z Face.lower && ! b.periodic
    then [(Face.lower, Axis.z)] else []) ++
  (if is_on_boundary b Axis.z Face.upper && ! b.periodic
    then [(Face.upper, Axis.z)] else [])

/-- Face count of `count_refresh_` (the `refresh_face(2)` block): one unit
per enabled axis direction. -/
def count_faces (fxm fxp fym fyp fzm fzp : Bool) : ℕ :=
  (if fxm then 1 else 0) + (if fxp then 1 else 0) +
  (if fym then 1 else 0) + (if fyp then 1 else 0) +
  (if fzm then 1 else 0) + (if fzp then 1 else 0)

/-- Edge count of `count_refresh_` (the `refresh_face(1)` block), in source
order. -/
def count_edges (fxm fxp fym fyp fzm fzp : Bool) : ℕ :=
  (if fxm && fym then 1 else 0) + (if fxm && fyp then 1 else 0) +
  (if fxp && fym then 1 else 0) + (if fxp && fyp then 1 else 0) +
  (if fym && fzm then 1 else 0) + (if fym && fzp then 1 else 0) +
  (if fyp && fzm then 1 else 0) + (if fyp && fzp then 1 else 0) +
  (if fzm && fxm then 1 else 0) + (if fzm && fxp then 1 else 0) +
  (if fzp && fxm then 1 else 0) + (if fzp && fxp then 1 else 0)

/-- Corner count of `count_refresh_` (the `refresh_face(0)` block). -/
def count_corners (fxm fxp fym fyp fzm fzp : Bool) : ℕ :=
  (if fxm && fym && fzm then 1 else 0) + (if fxm && fym && fzp then 1 else 0) +
  (if fxm && fyp && fzm then 1 else 0) + (if fxm && fyp && fzp then 1 else 0) +
  (if fxp && fym && fzm then 1 else 0) + (if fxp && fym && fzp then 1 else 0) +
  (if fxp && fyp && fzm then 1 else 0) + (if fxp && fyp && fzp then 1 else 0)

/-- Tail of `count_refresh_` once the six per-face masks and the three
refresh-class switches are known: `1` for self, then faces, edges, corners. -/
def count_from_masks (fxm fxp fym fyp fzm fzp cf ce cc : Bool) : ℕ :=
  1 + (if cf then count_faces fxm fxp fym fyp fzm fzp else 0)
    + (if ce then count_edges fxm fxp fym fyp fzm fzp else 0)
    + (if cc then count_corners fxm fxp fym fyp fzm fzp else 0)

/-- Transcribes `CommBlock::count_refresh_`: counts `1` for the block's own
self-delivered message, then one per enabled face, edge and corner
direction, where each direction is enabled iff all of its nonzero
components' masks (`cell count > 1` and `periodic or not on boundary`)
hold and its weight class is switched on. -/
def count_refresh_ (b : BlockConfig) : ℕ :=
  count_from_masks
    (face_mask b Axis.x Face.lower) (face_mask b Axis.x Face.upper)
    (face_mask b Axis.y Face.lower) (face_mask b Axis.y Face.upper)
    (face_mask b Axis.z Face.lower) (face_mask b Axis.z Face.upper)
    (b.refresh_face 2) (b.refresh_face 1) (b.refresh_face 0)

/-- Neighbor direction `(fx, fy, fz)` with components in `{-1, 0, 1}`. -/
structure Dir3 where
  fx : ℤ
  fy : ℤ
  fz : ℤ
  deriving DecidableEq, Repr

/-- Per-axis activity array of `CommBlock::refresh` (`fx3` / `fy3` / `fz3`):
index `0` (direction `-1`) and index `2` (direction `+1`) hold the
corresponding face masks, index `1` (direction `0`) is `true`. -/
def refresh_f3 (b : BlockConfig) (a : Axis) (f : ℤ) : Bool :=
  if f = -1 then face_mask b a Face.lower
  else if f = 1 then face_mask b a Face.upper
  else true

/-- Neighbor-index array of `CommBlock::refresh` (`ix3` / `iy3` / `iz3`):
`(ib - 1 + nb) % nb`, `ib`, `(ib + 1) % nb`. -/
def refresh_i3 (ib nb : ℕ) (f : ℤ) : ℕ :=
  if f = -1 then (ib + nb - 1) % nb
  else if f = 1 then (ib + 1) % nb
  else ib

/-- Loop bound of `CommBlock::refresh` for the y and z loops:
`(nb == 1 && ! periodic) ? 0 : 1` (the x bound `fxl` is the constant 1). -/
def refresh_fl (nb : ℕ) (periodic : Bool) : ℕ :=
  if nb == 1 && ! periodic then 0 else 1

/-- Direction range `-l .. l` of a refresh loop with bound `l ∈ {0, 1}`. -/
def loop_range (l : ℕ) : List ℤ :=
  if l = 0 then [0] else [-1, 0, 1]

/-- Send condition of the `CommBlock::refresh` triple loop: all three
per-axis activity entries hold, and the direction's Manhattan weight class
is enabled (`sum==1` needs `refresh_face(2)`, `sum==2` needs
`refresh_face(1)`, `sum==3` needs `refresh_face(0)`). -/
def refresh_send_cond (b : BlockConfig) (fx fy fz : ℤ) : Bool :=
  let sum := fx.natAbs + fy.natAbs + fz.natAbs
  (refresh_f3 b Axis.x fx && refresh_f3 b Axis.y fy && refresh_f3 b Axis.z fz) &&
  ((decide (sum = 1) && b.refresh_face 2) ||
   (decide (sum = 2) && b.refresh_face 1) ||
   (decide (sum = 3) && b.refresh_face 0))

/-- Ghost message as sent by `thisProxy[index].x_refresh (n, array, -fx, -fy, -fz)`:
the destination block index and the (already inverted) direction arguments. -/
structure GhostMsg where
  dex : ℕ
  dey : ℕ
  dez : ℕ
  tx : ℤ
  ty : ℤ
  tz : ℤ
  deriving DecidableEq, Repr

/-- Message built by the body of the `CommBlock::refresh` loop for direction
`(fx, fy, fz)`: destination `(ix3[fx+1], iy3[fy+1], iz3[fz+1])`, direction
arguments `(-fx, -fy, -fz)`. -/
def refresh_msg (b : BlockConfig) (d : Dir3) : GhostMsg :=
  { dex := refresh_i3 b.ibx b.nbx d.fx
    dey := refresh_i3 b.iby b.nby d.fy
    dez := refresh_i3 b.ibz b.nbz d.fz
    tx := -d.fx
    ty := -d.fy
    tz := -d.fz }

/-- Transcribes the message-sending triple loop of `CommBlock::refresh`:
`fx` ranges over `-1..1`, `fy` and `fz` over `-fyl..fyl` / `-fzl..fzl`,
and a message is sent for each direction passing `refresh_send_cond`. -/
def refresh_sends (b : BlockConfig) : List GhostMsg :=
  (loop_range 1).flatMap fun fx =>
    (loop_range (refresh_fl b.nby b.periodic)).flatMap fun fy =>
      ((loop_range (refresh_fl b.nbz b.periodic)).filter fun fz =>
        refresh_send_cond b fx fy fz).map fun fz =>
          refresh_msg b { fx := fx, fy := fy, fz := fz }

/-- All 27 direction triples in the (lexicographic) order of the refresh
loops; the zero direction is kept here and excluded by the weight-class
gate of `refresh_send_cond`. -/
def all_directions : List Dir3 :=
  (loop_range 1).flatMap fun fx =>
    (loop_range 1).flatMap fun fy =>
      (loop_range 1).map fun fz => { fx := fx, fy := fy, fz := fz }

/-- Active-direction set of a block: directions passing the send condition
of `CommBlock::refresh`. -/
def active_directions (b : BlockConfig) : List Dir3 :=
  all_directions.filter fun d => refresh_send_cond b d.fx d.fy d.fz

/-- Reduction contribution of one block for one cycle: the local candidate
timestep `dt_block` and the local stopping decision `stop_block`
(`CommBlock::prepare`). -/
structure Contribution where
  dt : ℚ
  stop : Bool
  deriving DecidableEq, Repr

/-- Transcribes the `min_reduce` array filled by `CommBlock::prepare`:
`min_reduce[0] = dt_block; min_reduce[1] = stop_block ? 1.0 : 0.0`. -/
def contribute_encode (c : Contribution) : ℚ × ℚ :=
  (c.dt, if c.stop then 1 else 0)

/-- Elementwise minimum of two encoded contributions, the combine operation
of `CkReduction::min_double` over two-double arrays. -/
def min_double (u v : ℚ × ℚ) : ℚ × ℚ :=
  (min u.1 v.1, min u.2 v.2)

/-- Result of the `contribute(2*sizeof(double), min_reduce,
CkReduction::min_double, callback)` collective over one contribution per
registered block (the list `c :: cs`, nonempty since the contributing block
itself is registered): the elementwise minimum of all encoded
contributions. -/
def ck_reduce (c : Contribution) (cs : List Contribution) : ℚ × ℚ :=
  (cs.map contribute_encode).foldl min_double (contribute_encode c)

/-- Transcribes the decoding in `CommBlock::p_output`:
`dt_forest = min_reduce[0]`. -/
def p_output_dt (r : ℚ × ℚ) : ℚ := r.1

/-- Transcribes the decoding in `CommBlock::p_output`:
`stop_forest = min_reduce[1] == 1.0 ? true : false`. -/
def p_output_stop (r : ℚ × ℚ) : Bool := decide (r.2 = 1)

/-- Transcribes the candidate-timestep pipeline of `CommBlock::prepare`:
start from `timestep->evaluate(...)`, fold `schedule->update_timestep(time_,
dt_block)` over the output list, then clamp with
`MIN(dt_block, time_stop - time_curr)`. -/
def prepare_dt (evaluate : ℚ) (schedules : List (ℚ → ℚ → ℚ))
    (time_ stop_time : ℚ) : ℚ :=
  min (schedules.foldl (fun dtb sch => sch time_ dtb) evaluate)
    (stop_time - time_)

/-- Contribution submitted by `CommBlock::prepare`: the clamped candidate
timestep together with `stopping->complete(cycle_, time_)`. -/
def prepare_contribution (evaluate : ℚ) (schedules : List (ℚ → ℚ → ℚ))
    (time_ stop_time : ℚ) (stop_block : Bool) : Contribution :=
  { dt := prepare_dt evaluate schedules time_ stop_time, stop := stop_block }

/-- Control location at which a block is suspended between handler runs:
waiting for ghost messages (`x_refresh` arrivals), waiting for the
reduction result (`p_output`), or waiting for the `p_compute` trigger that
the simulation sends after the reduction/output step. -/
inductive Ctrl : Type
  | ghostWait
  | reduceWait
  | trigWait
  deriving DecidableEq, Repr

/-- Observable protocol actions emitted by the handlers, each tagged with
the value of `cycle_` at the time it happens. -/
inductive ProtoOut : Type
  | ghostsSent (c : ℕ)
  | quorumOut (c : ℕ)
  | prepareRun (c : ℕ)
  | contributeOut (c : ℕ)
  | resultStored (c : ℕ)
  | methodsRun (c : ℕ)
  deriving DecidableEq, Repr

/-- Mutable per-block state of the protocol: `cycle_`, `time_`, `dt_`, the
`sync_refresh_` arrival counter, the suspended control location, and the
block's field data (abstract type `D`). -/
structure ActorState (D : Type) where
  cycle : ℕ
  time : ℚ
  dt : ℚ
  count : ℕ
  ctrl : Ctrl
  data : D
  deriving DecidableEq, Repr

/-- External collaborators of one block, abstracted: the quorum
(`count_refresh_()`, stored into `sync_refresh_.stop()`), the ghost-storing
effect of `FieldFace::store`, the boundary-enforcement effect of
`update_boundary_`, and the combined effect of the `Method::compute_block`
hooks. -/
structure MachineEnv (D : Type) where
  quorum : ℕ
  store : ℕ → ℕ → ℤ → ℤ → ℤ → D → D
  enforce : D → D
  methods : D → D

/-- Events a block can receive: a ghost message (`x_refresh` with byte
count `n`, an abstract buffer and the direction arguments), the reduction
result (`p_output`), and the compute trigger (`p_compute`). -/
inductive ProtoEv : Type
  | ghost (n buf : ℕ) (fx fy fz : ℤ)
  | result (dtv : ℚ)
  | trigger

/-- Transcribes the data effect of `CommBlock::x_refresh`: when `n != 0`
the buffer is stored into the matching ghost region via
`FieldFace::store`; the `n == 0` self-call skips the store entirely. -/
def x_refresh_apply {D : Type} (M : MachineEnv D) (n buf : ℕ)
    (fx fy fz : ℤ) (d : D) : D :=
  if n ≠ 0 then M.store n buf fx fy fz d else d

/-- Protocol-visible effect of `CommBlock::prepare`: enforce boundary
conditions (`update_boundary_`), evaluate the local timestep and stopping
criteria, and contribute to the reduction, after which the block is
suspended until `p_output` delivers the result. -/
def prepare_run {D : Type} (M : MachineEnv D) (s : ActorState D) :
    ActorState D × List ProtoOut :=
  ({ s with data := M.enforce s.data, ctrl := Ctrl.reduceWait },
   [ProtoOut.prepareRun s.cycle, ProtoOut.contributeOut s.cycle])

/-- Transcribes `CommBlock::x_refresh`: apply the message data (skipped for
`n == 0`), then advance the arrival counter; `sync_refresh_.done()` is
modelled from the spec (the `Sync` class is not under `src/`) as a counter
that, on reaching the quorum, resets for the next cycle and fires, upon
which `x_refresh` calls `prepare()`. -/
def x_refresh_step {D : Type} (M : MachineEnv D) (n buf : ℕ)
    (fx fy fz : ℤ) (s : ActorState D) : ActorState D × List ProtoOut :=
  let s1 := { s with data := x_refresh_apply M n buf fx fy fz s.data }
  if s1.count + 1 = M.quorum then
    let p := prepare_run M { s1 with count := 0 }
    (p.1, ProtoOut.quorumOut s.cycle :: p.2)
  else
    ({ s1 with count := s1.count + 1 }, [])

/-- One handler execution of the block.  `ghost` runs `x_refresh`.
`result` runs `p_output` (store the reduced `dt`), after which — modelled
from the spec, since the `SimulationCharm` output glue is not under
`src/` — the simulation eventually sends the `p_compute` trigger.
`trigger` runs `p_compute` → `compute`: invoke the methods, advance
`cycle_` and `time_`, then call `refresh()`, which sends this cycle's
ghost messages and finally self-delivers the empty message
`x_refresh(0,0, 0,0,0)`. -/
def comm_step {D : Type} (M : MachineEnv D) (s : ActorState D) :
    ProtoEv → ActorState D × List ProtoOut
  | ProtoEv.ghost n buf fx fy fz => x_refresh_step M n buf fx fy fz s
  | ProtoEv.result dtv =>
    if s.ctrl = Ctrl.reduceWait then
      ({ s with dt := dtv, ctrl := Ctrl.trigWait },
       [ProtoOut.resultStored s.cycle])
    else (s, [])
  | ProtoEv.trigger =>
    if s.ctrl = Ctrl.trigWait then
      let s1 := { s with data := M.methods s.data, cycle := s.cycle + 1,
                         time := s.time + s.dt, ctrl := Ctrl.ghostWait }
      let p := x_refresh_step M 0 0 0 0 0 s1
      (p.1, ProtoOut.methodsRun s.cycle :: ProtoOut.ghostsSent s1.cycle :: p.2)
    else (s, [])

/-- Runs a sequence of incoming events through the handlers, collecting the
emitted protocol actions in order. -/
def comm_exec {D : Type} (M : MachineEnv D) :
    ActorState D → List ProtoEv → ActorState D × List ProtoOut
  | s, [] => (s, [])
  | s, e :: evs =>
    let p := comm_step M s e
    let q := comm_exec M p.1 evs
    (q.1, p.2 ++ q.2)

/-- Start of the cycle loop, modelled from the spec (the startup code is
not under `src/`): the block enters the loop at the ghost-exchange phase of
cycle 0 — it sends its cycle-0 ghost messages and self-delivers the empty
message, exactly as `refresh()` does at the end of every later cycle. -/
def comm_start {D : Type} (M : MachineEnv D) (d0 : D) :
    ActorState D × List ProtoOut :=
  let s0 : ActorState D :=
    { cycle := 0, time := 0, dt := 0, count := 0, ctrl := Ctrl.ghostWait,
      data := d0 }
  let p := x_refresh_step M 0 0 0 0 0 s0
  (p.1, ProtoOut.ghostsSent 0 :: p.2)

/-- Full run of one block: start, then process the given event sequence. -/
def comm_run {D : Type} (M : MachineEnv D) (d0 : D) (evs : List ProtoEv) :
    ActorState D × List ProtoOut :=
  let p := comm_start M d0
  let q := comm_exec M p.1 evs
  (q.1, p.2 ++ q.2)

/-- Some occurrence of `a` strictly precedes position `n` in `l`. -/
def hasPrior (l : List ProtoOut) (a : ProtoOut) (n : ℕ) : Prop :=
  ∃ m, m < n ∧ l[m]? = some a

/-- Membership in a conditional singleton. -/
lemma mem_if_singleton {α : Type} {c : Bool} {x y : α} :
    (x ∈ if c = true then [y] else []) ↔ (c = true ∧ x = y) := by
  cases c <;> simp

/-- Concrete block used to refute claim C5: a lower-corner block of a
periodic 2×2×2 domain with 4 cells per axis. -/
def c5cex_block : BlockConfig :=
  { ibx := 0, iby := 0, ibz := 0, nbx := 2, nby := 2, nbz := 2,
    nx := 4, ny := 4, nz := 4, periodic := true, refresh_face := fun _ => true }

/-- C5 fails on the code: on a periodic domain, `update_boundary_` still
invokes `boundary->enforce` on domain-boundary faces — the lower x face of
`c5cex_block` is enforced although the domain is periodic, so the claimed
"boundary and not periodic" characterisation is false there, and the
enforced-face list differs from the specification reading. -/
theorem c5_counterexample :
    ¬ (((Face.lower, Axis.x) ∈ update_boundary_enforce c5cex_block) ↔
        (is_on_boundary c5cex_block Axis.x Face.lower = true ∧
         c5cex_block.periodic = false)) ∧
    update_boundary_enforce c5cex_block ≠ update_boundary_spec c5cex_block := by
  constructor
  · intro h
    have h1 : (Face.lower, Axis.x) ∈ update_boundary_enforce c5cex_block := by decide
    have h2 := h.mp h1
    exact absurd h2.2 (by decide)
  · decide

/-- C5 amended: during PREPARE, `boundary->enforce` is invoked exactly on
the faces where the block lies on the domain boundary and the block's local
cell count along that face's axis exceeds 1; periodicity is not consulted
by `update_boundary_`. -/
theorem c5_amended (b : BlockConfig) (f : Face) (a : Axis) :
    ((f, a) ∈ update_boundary_enforce b) ↔
      (is_on_boundary b a f = true ∧ 1 < cell_count b a) := by
  cases a <;> cases f <;>
    simp [update_boundary_enforce, mem_if_singleton, determine_boundary_flag,
          Bool.and_eq_true, decide_eq_true_eq, cell_count] <;>
    tauto

/-- Face masks are all true on a periodic domain when the cell count
exceeds 1. -/
lemma face_mask_true {b : BlockConfig} {a : Axis} (f : Face)
    (hp : b.periodic = true) (hn : 1 < cell_count b a) :
    face_mask b a f = true := by
  simp [face_mask, determine_boundary_flag, hp, hn]

/-- Concrete block refuting claim C3 as stated: a periodic 3×3×3 domain
whose blocks have a single cell along every axis. -/
def c3cex_block : BlockConfig :=
  { ibx := 0, iby := 0, ibz := 0, nbx := 3, nby := 3, nbz := 3,
    nx := 1, ny := 1, nz := 1, periodic := true,
    refresh_face := fun i => i == 2 }

/-- C3 fails as stated: in a periodic domain with 3 blocks along every axis
and face-only refresh, a block whose local cell count is 1 along every axis
computes quorum 1, not `1 + 6` — the claim omits the cell-count condition
of `count_refresh_`. -/
theorem c3_counterexample :
    c3cex_block.periodic = true ∧
    3 ≤ c3cex_block.nbx ∧ 3 ≤ c3cex_block.nby ∧ 3 ≤ c3cex_block.nbz ∧
    c3cex_block.refresh_face 2 = true ∧ c3cex_block.refresh_face 1 = false ∧
    c3cex_block.refresh_face 0 = false ∧
    count_refresh_ c3cex_block ≠ 1 + 6 := by
  decide

/-- C3 amended: for every block of a periodic domain with at least 3 blocks
and more than one cell along every axis, the quorum is `1 + 6` with
face-only refresh, `1 + 6 + 12` adding edge refresh, and `1 + 6 + 12 + 8`
adding corner refresh. -/
theorem c3_amended (b : BlockConfig) (hp : b.periodic = true)
    (h3x : 3 ≤ b.nbx) (h3y : 3 ≤ b.nby) (h3z : 3 ≤ b.nbz)
    (hnx : 1 < b.nx) (hny : 1 < b.ny) (hnz : 1 < b.nz) :
    (b.refresh_face 2 = true → b.refresh_face 1 = false →
      b.refresh_face 0 = false → count_refresh_ b = 1 + 6) ∧
    (b.refresh_face 2 = true → b.refresh_face 1 = true →
      b.refresh_face 0 = false → count_refresh_ b = 1 + 6 + 12) ∧
    (b.refresh_face 2 = true → b.refresh_face 1 = true →
      b.refresh_face 0 = true → count_refresh_ b = 1 + 6 + 12 + 8) := by
  have mxl := face_mask_true (b := b) (a := Axis.x) Face.lower hp hnx
  have mxu := face_mask_true (b := b) (a := Axis.x) Face.upper hp hnx
  have myl := face_mask_true (b := b) (a := Axis.y) Face.lower hp hny
  have myu := face_mask_true (b := b) (a := Axis.y) Face.upper hp hny
  have mzl := face_mask_true (b := b) (a := Axis.z) Face.lower hp hnz
  have mzu := face_mask_true (b := b) (a := Axis.z) Face.upper hp hnz
  unfold count_refresh_
  rw [mxl, mxu, myl, myu, mzl, mzu]
  refine ⟨fun h2 h1 h0 => ?_, fun h2 h1 h0 => ?_, fun h2 h1 h0 => ?_⟩ <;>
    rw [h2, h1, h0] <;> decide

/-- C9: the candidate timestep submitted by `prepare` is the evaluated
timestep folded through the output schedules and clamped by
`MIN(dt_block, stop_time - time_)`; consequently it never exceeds the
schedule-reduced value and advancing `time_` by it never overshoots the
configured stop time. -/
theorem c9_timestep_clamp (evaluate : ℚ) (schedules : List (ℚ → ℚ → ℚ))
    (time_ stop_time : ℚ) (stop_block : Bool) :
    (prepare_contribution evaluate schedules time_ stop_time stop_block).dt ≤
      stop_time - time_ ∧
    time_ + (prepare_contribution evaluate schedules time_ stop_time stop_block).dt ≤
      stop_time ∧
    (prepare_contribution evaluate schedules time_ stop_time stop_block).dt ≤
      schedules.foldl (fun dtb sch => sch time_ dtb) evaluate := by
  refine ⟨min_le_right _ _, ?_, min_le_left _ _⟩
  have h := min_le_right (schedules.foldl (fun dtb sch => sch time_ dtb) evaluate)
    (stop_time - time_)
  have h2 : (prepare_contribution evaluate schedules time_ stop_time stop_block).dt ≤
      stop_time - time_ := h
  linarith

/-- Combining two encoded contributions with `min_double` encodes the
contribution with the smaller timestep and the conjunction of the stop
indicators. -/
lemma min_double_encode (c x : Contribution) :
    min_double (contribute_encode c) (contribute_encode x) =
      contribute_encode { dt := min c.dt x.dt, stop := c.stop && x.stop } := by
  cases hc : c.stop <;> cases hx : x.stop <;>
    simp [min_double, contribute_encode, hc, hx]

/-- Closed form of the reduction: the minimum of all timesteps paired with
the indicator of all stop flags being set. -/
lemma ck_reduce_eq (c : Contribution) (cs : List Contribution) :
    ck_reduce c cs =
      contribute_encode
        { dt := (cs.map Contribution.dt).foldl min c.dt,
          stop := c.stop && cs.all Contribution.stop } := by
  induction cs generalizing c with
  | nil => simp [ck_reduce]
  | cons x xs ih =>
    have h : ck_reduce c (x :: xs) =
        ck_reduce { dt := min c.dt x.dt, stop := c.stop && x.stop } xs := by
      simp [ck_reduce, min_double_encode]
    rw [h, ih]
    simp [List.all_cons, Bool.and_assoc]

/-- Folding `min` over a list yields a lower bound of every element. -/
lemma foldl_min_le (l : List ℚ) : ∀ (a : ℚ), ∀ x ∈ a :: l, l.foldl min a ≤ x := by
  induction l with
  | nil =>
    intro a x hx
    simp at hx
    simp [hx]
  | cons b l ih =>
    intro a x hx
    rcases List.mem_cons.mp hx with h1 | hx
    · rw [h1]
      exact le_trans (ih (min a b) (min a b) (List.mem_cons_self _ _))
        (min_le_left _ _)
    · rcases List.mem_cons.mp hx with h2 | hx
      · rw [h2]
        exact le_trans (ih (min a b) (min a b) (List.mem_cons_self _ _))
          (min_le_right _ _)
      · exact ih (min a b) x (List.mem_cons_of_mem _ hx)

/-- Folding `min` over a list yields one of the elements. -/
lemma foldl_min_mem (l : List ℚ) : ∀ (a : ℚ), l.foldl min a ∈ a :: l := by
  induction l with
  | nil => intro a; simp
  | cons b l ih =>
    intro a
    have h := ih (min a b)
    rcases List.mem_cons.mp h with h | h
    · rcases min_choice a b with h2 | h2
      · exact List.mem_cons.mpr (Or.inl (h.trans h2))
      · exact List.mem_cons.mpr (Or.inr (List.mem_cons.mpr (Or.inl (h.trans h2))))
    · exact List.mem_cons.mpr (Or.inr (List.mem_cons.mpr (Or.inr h)))

/-- Decoded stop flag of an encoded contribution. -/
lemma p_output_stop_encode (c : Contribution) :
    p_output_stop (contribute_encode c) = c.stop := by
  cases h : c.stop <;> simp [p_output_stop, contribute_encode, h]

/-- Concrete contributions refuting claim C1: one block wants to stop, the
other does not. -/
def c1cex_a : Contribution := { dt := 1, stop := true }

/-- Second concrete contribution for the C1 counterexample. -/
def c1cex_b : Contribution := { dt := 2, stop := false }

/-- C1 fails on the code: the stop flag is reduced with
`CkReduction::min_double` together with the timestep, so the decoded
`stop_forest` is `min(1.0, 0.0) == 1.0 = false` although one block's stop
flag was set — "at least one" does not hold; the code computes the
conjunction, not the disjunction. -/
theorem c1_counterexample :
    ¬ ((p_output_stop (ck_reduce c1cex_a [c1cex_b]) = true) ↔
        ∃ x ∈ c1cex_a :: [c1cex_b], x.stop = true) := by
  intro h
  have h1 : p_output_stop (ck_reduce c1cex_a [c1cex_b]) = true :=
    h.mpr ⟨c1cex_a, by simp, rfl⟩
  have h2 : p_output_stop (ck_reduce c1cex_a [c1cex_b]) = false := by
    rw [ck_reduce_eq, p_output_stop_encode]
    decide
  rw [h1] at h2
  exact Bool.noConfusion h2

/-- C1 amended: the delivered `dt_forest` is the minimum of all submitted
candidate timesteps (hence a lower bound of each, attained by one of them),
and the delivered `stop_forest` is true iff every block's local stop flag
was true (logical AND, not OR — both reduction entries go through
`CkReduction::min_double`). -/
theorem c1_amended (c : Contribution) (cs : List Contribution) :
    (∀ x ∈ c :: cs, p_output_dt (ck_reduce c cs) ≤ x.dt) ∧
    (∃ x ∈ c :: cs, p_output_dt (ck_reduce c cs) = x.dt) ∧
    (p_output_stop (ck_reduce c cs) = true ↔ ∀ x ∈ c :: cs, x.stop = true) := by
  rw [ck_reduce_eq]
  refine ⟨?_, ?_, ?_⟩
  · intro x hx
    have hmem : x.dt ∈ c.dt :: cs.map Contribution.dt := by
      rcases List.mem_cons.mp hx with rfl | hx
      · exact List.mem_cons_self _ _
      · exact List.mem_cons_of_mem _ (List.mem_map_of_mem _ hx)
    exact foldl_min_le (cs.map Contribution.dt) c.dt x.dt hmem
  · have hmem := foldl_min_mem (cs.map Contribution.dt) c.dt
    rcases List.mem_cons.mp hmem with h | h
    · exact ⟨c, List.mem_cons_self _ _, h⟩
    · rcases List.mem_map.mp h with ⟨x, hx, hdt⟩
      exact ⟨x, List.mem_cons_of_mem _ hx, hdt.symm⟩
  · rw [p_output_stop_encode]
    simp [List.all_eq_true, List.forall_mem_cons]

/-- Per-axis activity in terms of the two face masks (the shape shared by
`refresh_f3` for every axis). -/
def f3_from_masks (m p : Bool) (f : ℤ) : Bool :=
  if f = -1 then m else if f = 1 then p else true

/-- Send condition of the refresh loop in terms of the six face masks and
the three refresh-class switches. -/
def cond_from_masks (fxm fxp fym fyp fzm fzp cf ce cc : Bool)
    (fx fy fz : ℤ) : Bool :=
  let sum := fx.natAbs + fy.natAbs + fz.natAbs
  (f3_from_masks fxm fxp fx && f3_from_masks fym fyp fy &&
   f3_from_masks fzm fzp fz) &&
  ((decide (sum = 1) && cf) || (decide (sum = 2) && ce) ||
   (decide (sum = 3) && cc))

/-- For every valuation of the six face masks and three class switches, the
count computed the way `count_refresh_` counts equals one plus the number
of directions passing the refresh send condition. -/
lemma count_from_masks_eq_filter :
    ∀ fxm fxp fym fyp fzm fzp cf ce cc : Bool,
      count_from_masks fxm fxp fym fyp fzm fzp cf ce cc =
        1 + (all_directions.filter fun d =>
              cond_from_masks fxm fxp fym fyp fzm fzp cf ce cc
                d.fx d.fy d.fz).length := by
  decide

/-- The quorum of `count_refresh_` is one (the self message) plus the
number of active directions of `CommBlock::refresh`. -/
lemma count_refresh_eq_active (b : BlockConfig) :
    count_refresh_ b = 1 + (active_directions b).length :=
  count_from_masks_eq_filter
    (face_mask b Axis.x Face.lower) (face_mask b Axis.x Face.upper)
    (face_mask b Axis.y Face.lower) (face_mask b Axis.y Face.upper)
    (face_mask b Axis.z Face.lower) (face_mask b Axis.z Face.upper)
    (b.refresh_face 2) (b.refresh_face 1) (b.refresh_face 0)

/-- Members of a refresh loop range are directions in `{-1, 0, 1}`. -/
lemma mem_loop_range {l : ℕ} {f : ℤ} (h : f ∈ loop_range l) :
    f = -1 ∨ f = 0 ∨ f = 1 := by
  unfold loop_range at h
  split at h <;> simp at h <;> tauto

/-- Every enumerated direction has components in `{-1, 0, 1}`. -/
lemma all_directions_components :
    ∀ d ∈ all_directions, (d.fx = -1 ∨ d.fx = 0 ∨ d.fx = 1) ∧
      (d.fy = -1 ∨ d.fy = 0 ∨ d.fy = 1) ∧
      (d.fz = -1 ∨ d.fz = 0 ∨ d.fz = 1) := by
  decide

/-- An axis with a single cell has both activity entries false. -/
lemma f3_false_of_single_cell {b : BlockConfig} {a : Axis}
    (h : cell_count b a = 1) {f : ℤ} (hf : f = -1 ∨ f = 1) :
    refresh_f3 b a f = false := by
  rcases hf with rfl | rfl <;>
    simp [refresh_f3, face_mask, determine_boundary_flag, h]

/-- A passing send condition requires all three per-axis activity
entries. -/
lemma send_cond_f3 {b : BlockConfig} {fx fy fz : ℤ}
    (h : refresh_send_cond b fx fy fz = true) :
    refresh_f3 b Axis.x fx = true ∧ refresh_f3 b Axis.y fy = true ∧
    refresh_f3 b Axis.z fz = true := by
  simp [refresh_send_cond, Bool.and_eq_true] at h
  tauto

/-- With one x cell, a passing direction has zero x component. -/
lemma send_cond_zero_x {b : BlockConfig} (hn : b.nx = 1) {fx fy fz : ℤ}
    (hf : fx = -1 ∨ fx = 0 ∨ fx = 1)
    (h : refresh_send_cond b fx fy fz = true) : fx = 0 := by
  rcases hf with h1 | h1 | h1
  · have hfalse := f3_false_of_single_cell (b := b) (a := Axis.x) hn (Or.inl h1)
    have h3 := (send_cond_f3 h).1
    rw [hfalse] at h3
    exact absurd h3 (by simp)
  · exact h1
  · have hfalse := f3_false_of_single_cell (b := b) (a := Axis.x) hn (Or.inr h1)
    have h3 := (send_cond_f3 h).1
    rw [hfalse] at h3
    exact absurd h3 (by simp)

/-- With one y cell, a passing direction has zero y component. -/
lemma send_cond_zero_y {b : BlockConfig} (hn : b.ny = 1) {fx fy fz : ℤ}
    (hf : fy = -1 ∨ fy = 0 ∨ fy = 1)
    (h : refresh_send_cond b fx fy fz = true) : fy = 0 := by
  rcases hf with h1 | h1 | h1
  · have hfalse := f3_false_of_single_cell (b := b) (a := Axis.y) hn (Or.inl h1)
    have h3 := (send_cond_f3 h).2.1
    rw [hfalse] at h3
    exact absurd h3 (by simp)
  · exact h1
  · have hfalse := f3_false_of_single_cell (b := b) (a := Axis.y) hn (Or.inr h1)
    have h3 := (send_cond_f3 h).2.1
    rw [hfalse] at h3
    exact absurd h3 (by simp)

/-- With one z cell, a passing direction has zero z component. -/
lemma send_cond_zero_z {b : BlockConfig} (hn : b.nz = 1) {fx fy fz : ℤ}
    (hf : fz = -1 ∨ fz = 0 ∨ fz = 1)
    (h : refresh_send_cond b fx fy fz = true) : fz = 0 := by
  rcases hf with h1 | h1 | h1
  · have hfalse := f3_false_of_single_cell (b := b) (a := Axis.z) hn (Or.inl h1)
    have h3 := (send_cond_f3 h).2.2
    rw [hfalse] at h3
    exact absurd h3 (by simp)
  · exact h1
  · have hfalse := f3_false_of_single_cell (b := b) (a := Axis.z) hn (Or.inr h1)
    have h3 := (send_cond_f3 h).2.2
    rw [hfalse] at h3
    exact absurd h3 (by simp)

/-- Destructs membership in the sent-message list into the loop variables
and the send condition. -/
lemma refresh_sends_mem {b : BlockConfig} {m : GhostMsg}
    (hm : m ∈ refresh_sends b) :
    ∃ fx fy fz : ℤ,
      (fx = -1 ∨ fx = 0 ∨ fx = 1) ∧ (fy = -1 ∨ fy = 0 ∨ fy = 1) ∧
      (fz = -1 ∨ fz = 0 ∨ fz = 1) ∧
      refresh_send_cond b fx fy fz = true ∧
      m = refresh_msg b { fx := fx, fy := fy, fz := fz } := by
  simp only [refresh_sends, List.mem_flatMap, List.mem_map,
    List.mem_filter] at hm
  obtain ⟨fx, hfx, fy, hfy, fz, ⟨hfzm, hcond⟩, hme⟩ := hm
  exact ⟨fx, fy, fz, mem_loop_range hfx, mem_loop_range hfy,
    mem_loop_range hfzm, hcond, hme.symm⟩

/-- C6: for a block with a single cell along an axis, no active direction
has a nonzero component along that axis — no ghost message is sent in such
a direction (the inverted direction argument of every sent message is zero
there) and no such direction is counted toward the quorum, which always
equals one plus the number of active directions. -/
theorem c6_single_cell_axis (b : BlockConfig) :
    (b.nx = 1 →
      (∀ d ∈ active_directions b, d.fx = 0) ∧
      ∀ m ∈ refresh_sends b, m.tx = 0) ∧
    (b.ny = 1 →
      (∀ d ∈ active_directions b, d.fy = 0) ∧
      ∀ m ∈ refresh_sends b, m.ty = 0) ∧
    (b.nz = 1 →
      (∀ d ∈ active_directions b, d.fz = 0) ∧
      ∀ m ∈ refresh_sends b, m.tz = 0) ∧
    count_refresh_ b = 1 + (active_directions b).length := by
  refine ⟨fun hn => ⟨?_, ?_⟩, fun hn => ⟨?_, ?_⟩, fun hn => ⟨?_, ?_⟩,
    count_refresh_eq_active b⟩
  · intro d hd
    obtain ⟨hmem, hcond⟩ := List.mem_filter.mp hd
    exact send_cond_zero_x hn (all_directions_components d hmem).1 hcond
  · intro m hm
    obtain ⟨fx, fy, fz, hfx, _, _, hcond, rfl⟩ := refresh_sends_mem hm
    have : fx = 0 := send_cond_zero_x hn hfx hcond
    simp [refresh_msg, this]
  · intro d hd
    obtain ⟨hmem, hcond⟩ := List.mem_filter.mp hd
    exact send_cond_zero_y hn (all_directions_components d hmem).2.1 hcond
  · intro m hm
    obtain ⟨fx, fy, fz, _, hfy, _, hcond, rfl⟩ := refresh_sends_mem hm
    have : fy = 0 := send_cond_zero_y hn hfy hcond
    simp [refresh_msg, this]
  · intro d hd
    obtain ⟨hmem, hcond⟩ := List.mem_filter.mp hd
    exact send_cond_zero_z hn (all_directions_components d hmem).2.2 hcond
  · intro m hm
    obtain ⟨fx, fy, fz, _, _, hfz, hcond, rfl⟩ := refresh_sends_mem hm
    have : fz = 0 := send_cond_zero_z hn hfz hcond
    simp [refresh_msg, this]

/-- Refresh loop generalized over the y and z ranges, for relating the
bounded loops of `refresh` to the full direction enumeration. -/
def refresh_canon (b : BlockConfig) (ys zs : List ℤ) : List GhostMsg :=
  (loop_range 1).flatMap fun fx =>
    ys.flatMap fun fy =>
      ((zs.filter fun fz => refresh_send_cond b fx fy fz).map fun fz =>
        refresh_msg b { fx := fx, fy := fy, fz := fz })

/-- The sent-message list is the canonical loop at the code's bounds. -/
lemma refresh_sends_canon (b : BlockConfig) :
    refresh_sends b =
      refresh_canon b (loop_range (refresh_fl b.nby b.periodic))
        (loop_range (refresh_fl b.nbz b.periodic)) := rfl

/-- Mapping the message constructor over the active directions is the
canonical loop over the full ranges. -/
lemma map_active_eq_canon (b : BlockConfig) :
    (active_directions b).map (refresh_msg b) =
      refresh_canon b (loop_range 1) (loop_range 1) := by
  unfold active_directions all_directions refresh_canon
  rw [List.filter_flatMap, List.map_flatMap]
  refine congrArg _ (funext fun fx => ?_)
  rw [List.filter_flatMap, List.map_flatMap]
  refine congrArg _ (funext fun fy => ?_)
  rw [List.filter_map, List.map_map]
  rfl

/-- In a non-periodic domain with a single block along y, a block in range
has both y activity entries false, so no direction with nonzero y component
passes the send condition. -/
lemma send_cond_false_y (b : BlockConfig) (hb : b.nby = 1)
    (hp : b.periodic = false) (hy : b.iby < b.nby) (fx fz : ℤ) {fy : ℤ}
    (hfy : fy = -1 ∨ fy = 1) : refresh_send_cond b fx fy fz = false := by
  have hy0 : b.iby = 0 := by omega
  have h3 : refresh_f3 b Axis.y fy = false := by
    rcases hfy with rfl | rfl <;>
      simp [refresh_f3, face_mask, is_on_boundary, block_index, block_extent,
        hb, hy0, hp]
  cases hcond : refresh_send_cond b fx fy fz
  · rfl
  · exact absurd ((send_cond_f3 hcond).2.1) (by simp [h3])

/-- In a non-periodic domain with a single block along z, a block in range
has both z activity entries false. -/
lemma send_cond_false_z (b : BlockConfig) (hb : b.nbz = 1)
    (hp : b.periodic = false) (hz : b.ibz < b.nbz) (fx fy : ℤ) {fz : ℤ}
    (hfz : fz = -1 ∨ fz = 1) : refresh_send_cond b fx fy fz = false := by
  have hz0 : b.ibz = 0 := by omega
  have h3 : refresh_f3 b Axis.z fz = false := by
    rcases hfz with rfl | rfl <;>
      simp [refresh_f3, face_mask, is_on_boundary, block_index, block_extent,
        hb, hz0, hp]
  cases hcond : refresh_send_cond b fx fy fz
  · rfl
  · exact absurd ((send_cond_f3 hcond).2.2) (by simp [h3])

/-- Dropping the degenerate y range does not change the canonical loop when
no direction with nonzero y component passes. -/
lemma refresh_canon_y (b : BlockConfig) (hb : b.nby = 1)
    (hp : b.periodic = false) (hy : b.iby < b.nby) (zs : List ℤ) :
    refresh_canon b [0] zs = refresh_canon b [-1, 0, 1] zs := by
  unfold refresh_canon
  refine congrArg _ (funext fun fx => ?_)
  have hm : (zs.filter fun fz => refresh_send_cond b fx (-1) fz) = [] :=
    List.filter_eq_nil_iff.mpr fun fz _ => by
      simp [send_cond_false_y b hb hp hy fx fz (Or.inl rfl)]
  have hpp : (zs.filter fun fz => refresh_send_cond b fx 1 fz) = [] :=
    List.filter_eq_nil_iff.mpr fun fz _ => by
      simp [send_cond_false_y b hb hp hy fx fz (Or.inr rfl)]
  simp [List.flatMap_cons, hm, hpp]

/-- Dropping the degenerate z range does not change the canonical loop when
no direction with nonzero z component passes. -/
lemma refresh_canon_z (b : BlockConfig) (hb : b.nbz = 1)
    (hp : b.periodic = false) (hz : b.ibz < b.nbz) (ys : List ℤ) :
    refresh_canon b ys [0] = refresh_canon b ys [-1, 0, 1] := by
  unfold refresh_canon
  refine congrArg _ (funext fun fx => ?_)
  refine congrArg _ (funext fun fy => ?_)
  have hm : refresh_send_cond b fx fy (-1) = false :=
    send_cond_false_z b hb hp hz fx fy (Or.inl rfl)
  have hpp : refresh_send_cond b fx fy 1 = false :=
    send_cond_false_z b hb hp hz fx fy (Or.inr rfl)
  simp [List.filter_cons, hm, hpp]

/-- Value of the y/z loop bound in the non-degenerate case. -/
lemma refresh_fl_one {nb : ℕ} {p : Bool} (h : ¬ (nb = 1 ∧ p = false)) :
    refresh_fl nb p = 1 := by
  unfold refresh_fl
  rcases hnb : (nb == 1) with _ | _ <;> rcases hp : p with _ | _ <;>
    simp_all

/-- The message loop of `refresh` sends exactly the messages of the active
directions, in loop order: the bounded y/z loops omit only directions the
send condition rejects anyway. -/
lemma refresh_sends_eq_map (b : BlockConfig) (hy : b.iby < b.nby)
    (hz : b.ibz < b.nbz) :
    refresh_sends b = (active_directions b).map (refresh_msg b) := by
  rw [refresh_sends_canon, map_active_eq_canon]
  by_cases hdy : b.nby = 1 ∧ b.periodic = false
  · have hfy : refresh_fl b.nby b.periodic = 0 := by
      simp [refresh_fl, hdy.1, hdy.2]
    by_cases hdz : b.nbz = 1 ∧ b.periodic = false
    · have hfz : refresh_fl b.nbz b.periodic = 0 := by
        simp [refresh_fl, hdz.1, hdz.2]
      rw [hfy, hfz]
      show refresh_canon b [0] [0] = refresh_canon b [-1, 0, 1] [-1, 0, 1]
      rw [refresh_canon_y b hdy.1 hdy.2 hy [0],
        refresh_canon_z b hdz.1 hdz.2 hz [-1, 0, 1]]
    · have hfz : refresh_fl b.nbz b.periodic = 1 := refresh_fl_one hdz
      rw [hfy, hfz]
      show refresh_canon b [0] [-1, 0, 1] = refresh_canon b [-1, 0, 1] [-1, 0, 1]
      exact refresh_canon_y b hdy.1 hdy.2 hy [-1, 0, 1]
  · have hfy : refresh_fl b.nby b.periodic = 1 := refresh_fl_one hdy
    by_cases hdz : b.nbz = 1 ∧ b.periodic = false
    · have hfz : refresh_fl b.nbz b.periodic = 0 := by
        simp [refresh_fl, hdz.1, hdz.2]
      rw [hfy, hfz]
      show refresh_canon b [-1, 0, 1] [0] = refresh_canon b [-1, 0, 1] [-1, 0, 1]
      exact refresh_canon_z b hdz.1 hdz.2 hz [-1, 0, 1]
    · have hfz : refresh_fl b.nbz b.periodic = 1 := refresh_fl_one hdz
      rw [hfy, hfz]

/-- The neighbor index computed by `refresh` (`ix3` array) is the block
index plus the direction component, wrapped modulo the block count. -/
lemma refresh_i3_emod (i n : ℕ) (f : ℤ) (hi : i < n)
    (hf : f = -1 ∨ f = 0 ∨ f = 1) :
    ((refresh_i3 i n f : ℕ) : ℤ) = ((i : ℤ) + f) % (n : ℤ) := by
  have hn : 0 < n := by omega
  rcases hf with rfl | rfl | rfl
  · show (((i + n - 1) % n : ℕ) : ℤ) = ((i : ℤ) + (-1)) % (n : ℤ)
    rw [Int.natCast_mod]
    have h1 : ((i + n - 1 : ℕ) : ℤ) = (i : ℤ) + (-1) + (n : ℤ) * 1 := by
      have : 1 ≤ i + n := by omega
      push_cast [this]
      ring
    rw [h1, Int.add_mul_emod_self_left]
  · show ((i : ℕ) : ℤ) = ((i : ℤ) + 0) % (n : ℤ)
    rw [add_zero, Int.emod_eq_of_lt (by positivity) (by exact_mod_cast hi)]
  · show (((i + 1) % n : ℕ) : ℤ) = ((i : ℤ) + 1) % (n : ℤ)
    rw [Int.natCast_mod]
    push_cast
    rfl

/-- The message constructor is injective: the inverted direction arguments
recover the direction. -/
lemma refresh_msg_injective (b : BlockConfig) :
    Function.Injective (refresh_msg b) := by
  intro d d' h
  cases d
  cases d'
  simp only [refresh_msg, GhostMsg.mk.injEq, neg_inj] at h
  obtain ⟨-, -, -, h4, h5, h6⟩ := h
  simp [h4, h5, h6]

/-- The direction enumeration has no duplicates. -/
lemma all_directions_nodup : all_directions.Nodup := by decide

/-- No direction with a component outside the range, and an in-range,
non-periodic block never activates a direction that would leave the
domain along an axis. -/
lemma active_in_domain {b : BlockConfig} (hp : b.periodic = false)
    {a : Axis} {f : ℤ} (hf : f = -1 ∨ f = 0 ∨ f = 1)
    (h3 : refresh_f3 b a f = true)
    (hi : block_index b a < block_extent b a) :
    0 ≤ (block_index b a : ℤ) + f ∧
    (block_index b a : ℤ) + f < (block_extent b a : ℤ) := by
  rcases hf with rfl | rfl | rfl
  · have hm : face_mask b a Face.lower = true := by
      simpa [refresh_f3] using h3
    have hb : is_on_boundary b a Face.lower = false := by
      rcases hbb : is_on_boundary b a Face.lower with _ | _
      · rfl
      · rw [face_mask, hp, hbb] at hm
        simp at hm
    have hzero : block_index b a ≠ 0 := by
      simpa [is_on_boundary] using hb
    constructor
    · omega
    · have : (block_index b a : ℤ) < (block_extent b a : ℤ) := by
        exact_mod_cast hi
      omega
  · constructor
    · positivity
    · simpa using (by exact_mod_cast hi :
        (block_index b a : ℤ) < (block_extent b a : ℤ))
  · have hm : face_mask b a Face.upper = true := by
      simpa [refresh_f3] using h3
    have hb : is_on_boundary b a Face.upper = false := by
      rcases hbb : is_on_boundary b a Face.upper with _ | _
      · rfl
      · rw [face_mask, hp, hbb] at hm
        simp at hm
    have hne : block_index b a ≠ block_extent b a - 1 := by
      simpa [is_on_boundary] using hb
    have hlt : block_index b a + 1 < block_extent b a := by omega
    constructor
    · positivity
    · exact_mod_cast hlt

/-- C7: for every active direction the refresh step sends exactly one ghost
message; its destination is, per axis, the block index plus the direction
component wrapped modulo the block count, its direction arguments are the
inverse direction, and in a non-periodic domain no active direction leaves
the domain (so no message crosses a non-periodic boundary). -/
theorem c7_refresh_messages (b : BlockConfig) (hx : b.ibx < b.nbx)
    (hy : b.iby < b.nby) (hz : b.ibz < b.nbz) :
    (∀ d ∈ active_directions b,
      (refresh_sends b).count (refresh_msg b d) = 1 ∧
      ((refresh_msg b d).dex : ℤ) = ((b.ibx : ℤ) + d.fx) % (b.nbx : ℤ) ∧
      ((refresh_msg b d).dey : ℤ) = ((b.iby : ℤ) + d.fy) % (b.nby : ℤ) ∧
      ((refresh_msg b d).dez : ℤ) = ((b.ibz : ℤ) + d.fz) % (b.nbz : ℤ) ∧
      (refresh_msg b d).tx = -d.fx ∧ (refresh_msg b d).ty = -d.fy ∧
      (refresh_msg b d).tz = -d.fz) ∧
    (b.periodic = false → ∀ d ∈ active_directions b,
      (0 ≤ (b.ibx : ℤ) + d.fx ∧ (b.ibx : ℤ) + d.fx < (b.nbx : ℤ)) ∧
      (0 ≤ (b.iby : ℤ) + d.fy ∧ (b.iby : ℤ) + d.fy < (b.nby : ℤ)) ∧
      (0 ≤ (b.ibz : ℤ) + d.fz ∧ (b.ibz : ℤ) + d.fz < (b.nbz : ℤ))) := by
  constructor
  · intro d hd
    have hcomp :=
      all_directions_components d (List.mem_filter.mp hd).1
    refine ⟨?_, ?_, ?_, ?_, rfl, rfl, rfl⟩
    · rw [refresh_sends_eq_map b hy hz,
        List.count_map_of_injective _ _ (refresh_msg_injective b)]
      exact List.count_eq_one_of_mem (all_directions_nodup.filter _) hd
    · exact refresh_i3_emod b.ibx b.nbx d.fx hx hcomp.1
    · exact refresh_i3_emod b.iby b.nby d.fy hy hcomp.2.1
    · exact refresh_i3_emod b.ibz b.nbz d.fz hz hcomp.2.2
  · intro hp d hd
    obtain ⟨hmem, hcond⟩ := List.mem_filter.mp hd
    have hcomp := all_directions_components d hmem
    have h3 := send_cond_f3 hcond
    exact ⟨active_in_domain hp hcomp.1 h3.1 hx,
      active_in_domain hp hcomp.2.1 h3.2.1 hy,
      active_in_domain hp hcomp.2.2 h3.2.2 hz⟩

/-- A getElem? hit is within bounds. -/
lemma getElem_some_lt {α : Type} {l : List α} {n : ℕ} {x : α}
    (h : l[n]? = some x) : n < l.length := by
  obtain ⟨hlt, -⟩ := List.getElem?_eq_some_iff.mp h
  exact hlt

/-- Splitting a getElem? hit on an appended list. -/
lemma getElem_append_split {α : Type} {l o : List α} {n : ℕ} {x : α}
    (h : (l ++ o)[n]? = some x) :
    l[n]? = some x ∨ ∃ k, n = l.length + k ∧ o[k]? = some x := by
  by_cases hn : n < l.length
  · left
    rwa [List.getElem?_append_left hn] at h
  · right
    push_neg at hn
    refine ⟨n - l.length, by omega, ?_⟩
    rwa [List.getElem?_append_right hn] at h

/-- Priority witnesses survive appending on the right. -/
lemma hasPrior_append {l o : List ProtoOut} {a : ProtoOut} {n : ℕ}
    (h : hasPrior l a n) : hasPrior (l ++ o) a n := by
  obtain ⟨m, hm, he⟩ := h
  exact ⟨m, hm, by rw [List.getElem?_append_left (getElem_some_lt he)]; exact he⟩

/-- A member of the prefix is prior to any position past the prefix. -/
lemma hasPrior_of_mem {l o : List ProtoOut} {a : ProtoOut} {n : ℕ}
    (h : a ∈ l) (hn : l.length ≤ n) : hasPrior (l ++ o) a n := by
  obtain ⟨m, hm⟩ := List.mem_iff_getElem?.mp h
  have hlt := getElem_some_lt hm
  exact ⟨m, by omega, by rw [List.getElem?_append_left hlt]; exact hm⟩

/-- An element of the appended block is prior to later offsets in it. -/
lemma hasPrior_offset {l o : List ProtoOut} {a : ProtoOut} {k j : ℕ}
    (hk : o[k]? = some a) (hkj : k < j) :
    hasPrior (l ++ o) a (l.length + j) := by
  refine ⟨l.length + k, by omega, ?_⟩
  rw [List.getElem?_append_right (by omega)]
  have hsub : l.length + k - l.length = k := by omega
  rw [hsub]
  exact hk

/-- State/trace invariant tying the suspended control location to the
actions already emitted: a block waiting for the reduction has reached its
quorum this cycle, a block waiting for the compute trigger has furthermore
stored the reduction result, and the current cycle's ghost sends have
happened. -/
def ProtoInv {D : Type} (s : ActorState D) (l : List ProtoOut) : Prop :=
  (s.ctrl = Ctrl.reduceWait → ProtoOut.quorumOut s.cycle ∈ l) ∧
  (s.ctrl = Ctrl.trigWait →
    ProtoOut.quorumOut s.cycle ∈ l ∧ ProtoOut.resultStored s.cycle ∈ l) ∧
  ProtoOut.ghostsSent s.cycle ∈ l

/-- Trace ordering property: methods for a cycle run only after that
cycle's reduction result and ghost quorum, and `prepare` runs only after
that cycle's ghost sends and quorum. -/
def ProtoGood (l : List ProtoOut) : Prop :=
  ∀ c n : ℕ,
    (l[n]? = some (ProtoOut.methodsRun c) →
      hasPrior l (ProtoOut.resultStored c) n ∧
      hasPrior l (ProtoOut.quorumOut c) n) ∧
    (l[n]? = some (ProtoOut.prepareRun c) →
      hasPrior l (ProtoOut.ghostsSent c) n ∧
      hasPrior l (ProtoOut.quorumOut c) n)

/-- Unfolded form of `x_refresh_step` when the arrival completes the
quorum. -/
lemma x_refresh_step_quorum {D : Type} (M : MachineEnv D) (n buf : ℕ)
    (fx fy fz : ℤ) (s : ActorState D) (h : s.count + 1 = M.quorum) :
    x_refresh_step M n buf fx fy fz s =
      ({ s with data := M.enforce (x_refresh_apply M n buf fx fy fz s.data),
                count := 0, ctrl := Ctrl.reduceWait },
       [ProtoOut.quorumOut s.cycle, ProtoOut.prepareRun s.cycle,
        ProtoOut.contributeOut s.cycle]) := by
  simp [x_refresh_step, prepare_run, h]

/-- Unfolded form of `x_refresh_step` when the quorum is not yet
reached. -/
lemma x_refresh_step_miss {D : Type} (M : MachineEnv D) (n buf : ℕ)
    (fx fy fz : ℤ) (s : ActorState D) (h : ¬ s.count + 1 = M.quorum) :
    x_refresh_step M n buf fx fy fz s =
      ({ s with data := x_refresh_apply M n buf fx fy fz s.data,
                count := s.count + 1 }, []) := by
  simp [x_refresh_step, h]

/-- One `x_refresh` handler run preserves the invariant and the ordering
property. -/
lemma x_refresh_step_ok {D : Type} (M : MachineEnv D) (n buf : ℕ)
    (fx fy fz : ℤ) (s : ActorState D) (l : List ProtoOut)
    (hI : ProtoInv s l) (hG : ProtoGood l) :
    ProtoInv (x_refresh_step M n buf fx fy fz s).1
      (l ++ (x_refresh_step M n buf fx fy fz s).2) ∧
    ProtoGood (l ++ (x_refresh_step M n buf fx fy fz s).2) := by
  by_cases hq : s.count + 1 = M.quorum
  · rw [x_refresh_step_quorum M n buf fx fy fz s hq]
    constructor
    · refine ⟨fun _ => ?_, fun h => ?_, ?_⟩
      · exact List.mem_append_right _ (by simp)
      · exact Ctrl.noConfusion h
      · exact List.mem_append_left _ hI.2.2
    · intro c k
      constructor
      · intro hcc
        rcases getElem_append_split hcc with hl | ⟨j, rfl, hj⟩
        · have h0 := (hG c k).1 hl
          exact ⟨hasPrior_append h0.1, hasPrior_append h0.2⟩
        · rcases j with _ | _ | _ | j <;> simp at hj
      · intro hcc
        rcases getElem_append_split hcc with hl | ⟨j, rfl, hj⟩
        · have h0 := (hG c k).2 hl
          exact ⟨hasPrior_append h0.1, hasPrior_append h0.2⟩
        · rcases j with _ | _ | _ | j <;> simp at hj
          rcases hj with ⟨rfl⟩
          refine ⟨hasPrior_of_mem hI.2.2 (by omega), ?_⟩
          exact hasPrior_offset (k := 0) (by simp) (by omega)
  · rw [x_refresh_step_miss M n buf fx fy fz s hq]
    simp only [List.append_nil]
    exact ⟨⟨fun h => hI.1 h, fun h => hI.2.1 h, hI.2.2⟩, hG⟩

/-- State after the `compute` part of the trigger handler: methods applied,
cycle and time advanced, control back at the ghost-exchange phase. -/
def trig_next {D : Type} (M : MachineEnv D) (s : ActorState D) :
    ActorState D :=
  { s with data := M.methods s.data, cycle := s.cycle + 1,
           time := s.time + s.dt, ctrl := Ctrl.ghostWait }

/-- One handler execution preserves the invariant and the ordering
property. -/
lemma comm_step_ok {D : Type} (M : MachineEnv D) (s : ActorState D)
    (e : ProtoEv) (l : List ProtoOut) (hI : ProtoInv s l) (hG : ProtoGood l) :
    ProtoInv (comm_step M s e).1 (l ++ (comm_step M s e).2) ∧
    ProtoGood (l ++ (comm_step M s e).2) := by
  cases e with
  | ghost n buf fx fy fz => exact x_refresh_step_ok M n buf fx fy fz s l hI hG
  | result dtv =>
    by_cases hc : s.ctrl = Ctrl.reduceWait
    · have hstep : comm_step M s (ProtoEv.result dtv) =
          ({ s with dt := dtv, ctrl := Ctrl.trigWait },
           [ProtoOut.resultStored s.cycle]) := by
        simp [comm_step, hc]
      rw [hstep]
      constructor
      · refine ⟨fun h => Ctrl.noConfusion h, fun _ => ⟨?_, ?_⟩, ?_⟩
        · exact List.mem_append_left _ (hI.1 hc)
        · exact List.mem_append_right _ (by simp)
        · exact List.mem_append_left _ hI.2.2
      · intro c k
        constructor
        · intro hcc
          rcases getElem_append_split hcc with hl | ⟨j, rfl, hj⟩
          · have h0 := (hG c k).1 hl
            exact ⟨hasPrior_append h0.1, hasPrior_append h0.2⟩
          · rcases j with _ | j <;> simp at hj
        · intro hcc
          rcases getElem_append_split hcc with hl | ⟨j, rfl, hj⟩
          · have h0 := (hG c k).2 hl
            exact ⟨hasPrior_append h0.1, hasPrior_append h0.2⟩
          · rcases j with _ | j <;> simp at hj
    · have hstep : comm_step M s (ProtoEv.result dtv) = (s, []) := by
        simp [comm_step, hc]
      rw [hstep]
      simp only [List.append_nil]
      exact ⟨hI, hG⟩
  | trigger =>
    by_cases hc : s.ctrl = Ctrl.trigWait
    · have hstep : comm_step M s ProtoEv.trigger =
          ((x_refresh_step M 0 0 0 0 0 (trig_next M s)).1,
           [ProtoOut.methodsRun s.cycle, ProtoOut.ghostsSent (s.cycle + 1)] ++
             (x_refresh_step M 0 0 0 0 0 (trig_next M s)).2) := by
        simp [comm_step, hc, trig_next]
      have hI2 : ProtoInv (trig_next M s)
          (l ++ [ProtoOut.methodsRun s.cycle,
                 ProtoOut.ghostsSent (s.cycle + 1)]) := by
        refine ⟨fun h => ?_, fun h => ?_, ?_⟩
        · exact absurd h (by simp [trig_next])
        · exact absurd h (by simp [trig_next])
        · refine List.mem_append_right _ ?_
          simp [trig_next]
      have hG2 : ProtoGood
          (l ++ [ProtoOut.methodsRun s.cycle,
                 ProtoOut.ghostsSent (s.cycle + 1)]) := by
        intro c k
        constructor
        · intro hcc
          rcases getElem_append_split hcc with hl | ⟨j, rfl, hj⟩
          · have h0 := (hG c k).1 hl
            exact ⟨hasPrior_append h0.1, hasPrior_append h0.2⟩
          · rcases j with _ | _ | j <;> simp at hj
            rcases hj with ⟨rfl⟩
            have hmem := hI.2.1 hc
            exact ⟨hasPrior_of_mem hmem.2 (by omega),
              hasPrior_of_mem hmem.1 (by omega)⟩
        · intro hcc
          rcases getElem_append_split hcc with hl | ⟨j, rfl, hj⟩
          · have h0 := (hG c k).2 hl
            exact ⟨hasPrior_append h0.1, hasPrior_append h0.2⟩
          · rcases j with _ | _ | j <;> simp at hj
      have h3 := x_refresh_step_ok M 0 0 0 0 0 (trig_next M s) _ hI2 hG2
      rw [hstep]
      constructor
      · rw [← List.append_assoc]
        exact h3.1
      · rw [← List.append_assoc]
        exact h3.2
    · have hstep : comm_step M s ProtoEv.trigger = (s, []) := by
        simp [comm_step, hc]
      rw [hstep]
      simp only [List.append_nil]
      exact ⟨hI, hG⟩

/-- Unfolding one event of the executor. -/
lemma comm_exec_cons {D : Type} (M : MachineEnv D) (s : ActorState D)
    (e : ProtoEv) (evs : List ProtoEv) :
    comm_exec M s (e :: evs) =
      ((comm_exec M (comm_step M s e).1 evs).1,
       (comm_step M s e).2 ++ (comm_exec M (comm_step M s e).1 evs).2) := rfl

/-- Executing any event sequence preserves the invariant and the ordering
property. -/
lemma comm_exec_ok {D : Type} (M : MachineEnv D) :
    ∀ (evs : List ProtoEv) (s : ActorState D) (l : List ProtoOut),
      ProtoInv s l → ProtoGood l →
      ProtoInv (comm_exec M s evs).1 (l ++ (comm_exec M s evs).2) ∧
      ProtoGood (l ++ (comm_exec M s evs).2) := by
  intro evs
  induction evs with
  | nil =>
    intro s l hI hG
    simp only [comm_exec, List.append_nil]
    exact ⟨hI, hG⟩
  | cons e evs ih =>
    intro s l hI hG
    have h1 := comm_step_ok M s e l hI hG
    have h2 := ih (comm_step M s e).1 (l ++ (comm_step M s e).2) h1.1 h1.2
    rw [comm_exec_cons, ← List.append_assoc] at *
    exact h2

/-- The modelled start satisfies the invariant and ordering property. -/
lemma comm_start_ok {D : Type} (M : MachineEnv D) (d0 : D) :
    ProtoInv (comm_start M d0).1 (comm_start M d0).2 ∧
    ProtoGood (comm_start M d0).2 := by
  have hI0 : ProtoInv
      ({ cycle := 0, time := 0, dt := 0, count := 0, ctrl := Ctrl.ghostWait,
         data := d0 } : ActorState D) [ProtoOut.ghostsSent 0] := by
    exact ⟨fun h => Ctrl.noConfusion h, fun h => Ctrl.noConfusion h, by simp⟩
  have hG0 : ProtoGood [ProtoOut.ghostsSent 0] := by
    intro c k
    constructor <;> intro hcc <;> rcases k with _ | k <;> simp at hcc
  exact x_refresh_step_ok M 0 0 0 0 0 _ _ hI0 hG0

/-- Every run of the block satisfies the trace ordering property. -/
lemma comm_run_good {D : Type} (M : MachineEnv D) (d0 : D)
    (evs : List ProtoEv) : ProtoGood (comm_run M d0 evs).2 := by
  have h0 := comm_start_ok M d0
  have h1 := comm_exec_ok M evs (comm_start M d0).1 (comm_start M d0).2
    h0.1 h0.2
  exact h1.2

/-- C2: an actor never begins the compute step that runs the methods and
advances its cycle counter from `c` to `c + 1` until it has both stored the
reduction result for cycle `c` and reached its ghost quorum for cycle `c`:
in every run, a `methodsRun c` action is strictly preceded by
`resultStored c` and `quorumOut c`. -/
theorem c2_cycle_barrier {D : Type} (M : MachineEnv D) (d0 : D)
    (evs : List ProtoEv) (c n : ℕ)
    (h : (comm_run M d0 evs).2[n]? = some (ProtoOut.methodsRun c)) :
    hasPrior (comm_run M d0 evs).2 (ProtoOut.resultStored c) n ∧
    hasPrior (comm_run M d0 evs).2 (ProtoOut.quorumOut c) n :=
  (comm_run_good M d0 evs c n).1 h

/-- Concrete single-block machine environment (quorum 1) used by the
machine witnesses. -/
def sample_env : MachineEnv ℕ :=
  { quorum := 1, store := fun _ _ _ _ _ d => d + 1,
    enforce := fun d => d, methods := fun d => d }

/-- Concrete event sequence: deliver the cycle-0 reduction result, then the
compute trigger. -/
def sample_evs : List ProtoEv := [ProtoEv.result 5, ProtoEv.trigger]

/-- Witness for C2 at a concrete run: the compute step of cycle 0 sits at
position 5 of the trace, after the result and the quorum. -/
theorem c2_witness :
    (comm_run sample_env 0 sample_evs).2[5]? = some (ProtoOut.methodsRun 0) ∧
    (hasPrior (comm_run sample_env 0 sample_evs).2
        (ProtoOut.resultStored 0) 5 ∧
     hasPrior (comm_run sample_env 0 sample_evs).2
        (ProtoOut.quorumOut 0) 5) :=
  ⟨by decide, c2_cycle_barrier sample_env 0 sample_evs 0 5 (by decide)⟩

/-- C4 fails as stated: the code performs the reduction and the compute
step *before* sending that cycle's ghost messages, so a cycle's
`ghostsSent` is not preceded by that cycle's PREPARE (boundary enforcement,
timestep evaluation, contribution) or reduction result — refuted on a
concrete run at cycle 1, where `ghostsSent 1` (position 6) precedes
`prepareRun 1` (position 8). -/
theorem c4_counterexample :
    ¬ (∀ (D : Type) (M : MachineEnv D) (d0 : D) (evs : List ProtoEv)
        (c n : ℕ),
        (comm_run M d0 evs).2[n]? = some (ProtoOut.ghostsSent c) →
        hasPrior (comm_run M d0 evs).2 (ProtoOut.prepareRun c) n ∧
        hasPrior (comm_run M d0 evs).2 (ProtoOut.resultStored c) n) := by
  intro h
  have h6 := (h ℕ sample_env 0 sample_evs 1 6 (by decide)).1
  have h7 : ∃ m, m < 6 ∧ (comm_run sample_env 0 sample_evs).2[m]? =
      some (ProtoOut.prepareRun 1) := h6
  exact absurd h7 (by decide)

/-- C4 amended: within each cycle the actor first sends that cycle's ghost
messages and reaches the ghost quorum, and only then performs boundary
enforcement, timestep evaluation and the reduction contribution (PREPARE);
it transitions to COMPUTE only after both the quorum and the reduction
result of that cycle. -/
theorem c4_amended {D : Type} (M : MachineEnv D) (d0 : D)
    (evs : List ProtoEv) (c n : ℕ) :
    ((comm_run M d0 evs).2[n]? = some (ProtoOut.prepareRun c) →
      hasPrior (comm_run M d0 evs).2 (ProtoOut.ghostsSent c) n ∧
      hasPrior (comm_run M d0 evs).2 (ProtoOut.quorumOut c) n) ∧
    ((comm_run M d0 evs).2[n]? = some (ProtoOut.methodsRun c) →
      hasPrior (comm_run M d0 evs).2 (ProtoOut.quorumOut c) n ∧
      hasPrior (comm_run M d0 evs).2 (ProtoOut.resultStored c) n) :=
  ⟨fun h => (comm_run_good M d0 evs c n).2 h,
   fun h => ⟨((comm_run_good M d0 evs c n).1 h).2,
     ((comm_run_good M d0 evs c n).1 h).1⟩⟩

/-- Witness for the amended C4 at a concrete run: cycle 1's PREPARE sits at
position 8, after `ghostsSent 1` and `quorumOut 1`. -/
theorem c4_witness :
    (comm_run sample_env 0 sample_evs).2[8]? = some (ProtoOut.prepareRun 1) ∧
    (hasPrior (comm_run sample_env 0 sample_evs).2
        (ProtoOut.ghostsSent 1) 8 ∧
     hasPrior (comm_run sample_env 0 sample_evs).2
        (ProtoOut.quorumOut 1) 8) :=
  ⟨by decide, (c4_amended sample_env 0 sample_evs 1 8).1 (by decide)⟩

/-- C8: the quorum of `count_refresh_` always equals 1 plus the number of
active directions, the 1 accounting for the self-delivered empty message,
so a block with no active directions has quorum 1; and with quorum 1 the
trigger handler (compute then refresh) passes AWAIT_GHOSTS and reaches the
PREPARE/contribute phase from its single self-delivered message alone, with
no foreign ghost event. -/
theorem c8_quorum_structure (b : BlockConfig) {D : Type} (M : MachineEnv D)
    (s : ActorState D) (hq : M.quorum = 1) (hcnt : s.count = 0)
    (hctrl : s.ctrl = Ctrl.trigWait) :
    count_refresh_ b = 1 + (active_directions b).length ∧
    ((active_directions b).length = 0 → count_refresh_ b = 1) ∧
    comm_step M s ProtoEv.trigger =
      ({ s with data := M.enforce (M.methods s.data), cycle := s.cycle + 1,
                time := s.time + s.dt, count := 0, ctrl := Ctrl.reduceWait },
       [ProtoOut.methodsRun s.cycle, ProtoOut.ghostsSent (s.cycle + 1),
        ProtoOut.quorumOut (s.cycle + 1), ProtoOut.prepareRun (s.cycle + 1),
        ProtoOut.contributeOut (s.cycle + 1)]) := by
  refine ⟨count_refresh_eq_active b,
    fun h => by rw [count_refresh_eq_active b, h], ?_⟩
  have hstep : comm_step M s ProtoEv.trigger =
      ((x_refresh_step M 0 0 0 0 0 (trig_next M s)).1,
       [ProtoOut.methodsRun s.cycle, ProtoOut.ghostsSent (s.cycle + 1)] ++
         (x_refresh_step M 0 0 0 0 0 (trig_next M s)).2) := by
    simp [comm_step, hctrl, trig_next]
  rw [hstep, x_refresh_step_quorum M 0 0 0 0 0 (trig_next M s)
    (by simp [trig_next, hcnt, hq])]
  simp [trig_next, x_refresh_apply]

/-- Single-block non-periodic configuration: no active directions. -/
def c8_empty_block : BlockConfig :=
  { ibx := 0, iby := 0, ibz := 0, nbx := 1, nby := 1, nbz := 1,
    nx := 8, ny := 8, nz := 8, periodic := false,
    refresh_face := fun i => i == 2 }

/-- Concrete state suspended at the compute trigger. -/
def c8_state : ActorState ℕ :=
  { cycle := 3, time := 0, dt := 1, count := 0, ctrl := Ctrl.trigWait,
    data := 7 }

/-- Witness for C8: the single non-periodic block has an empty
active-direction set and quorum 1, and its trigger step reaches the
contribute phase from the self message alone. -/
theorem c8_witness :
    count_refresh_ c8_empty_block =
      1 + (active_directions c8_empty_block).length ∧
    ((active_directions c8_empty_block).length = 0 →
      count_refresh_ c8_empty_block = 1) ∧
    comm_step sample_env c8_state ProtoEv.trigger =
      ({ c8_state with
          data := sample_env.enforce (sample_env.methods c8_state.data),
          cycle := c8_state.cycle + 1, time := c8_state.time + c8_state.dt,
          count := 0, ctrl := Ctrl.reduceWait },
       [ProtoOut.methodsRun c8_state.cycle,
        ProtoOut.ghostsSent (c8_state.cycle + 1),
        ProtoOut.quorumOut (c8_state.cycle + 1),
        ProtoOut.prepareRun (c8_state.cycle + 1),
        ProtoOut.contributeOut (c8_state.cycle + 1)]) :=
  c8_quorum_structure c8_empty_block sample_env c8_state rfl rfl rfl

/-- C10: receiving the empty self-delivered message (`n = 0`) stores
nothing — the block's data is untouched by the message application — and
the handler's only effect is to advance the arrival counter, except that
completing the quorum triggers the transition past AWAIT_GHOSTS into
PREPARE (whose own boundary enforcement is the only data change). -/
theorem c10_empty_self_message {D : Type} (M : MachineEnv D)
    (s : ActorState D) (buf : ℕ) (fx fy fz : ℤ) :
    (∀ d : D, x_refresh_apply M 0 buf fx fy fz d = d) ∧
    (s.count + 1 ≠ M.quorum →
      comm_step M s (ProtoEv.ghost 0 buf fx fy fz) =
        ({ s with count := s.count + 1 }, [])) ∧
    (s.count + 1 = M.quorum →
      comm_step M s (ProtoEv.ghost 0 buf fx fy fz) =
        ({ s with data := M.enforce s.data, count := 0,
                  ctrl := Ctrl.reduceWait },
         [ProtoOut.quorumOut s.cycle, ProtoOut.prepareRun s.cycle,
          ProtoOut.contributeOut s.cycle])) := by
  refine ⟨fun d => by simp [x_refresh_apply], fun h => ?_, fun h => ?_⟩
  · show x_refresh_step M 0 buf fx fy fz s = _
    rw [x_refresh_step_miss M 0 buf fx fy fz s h]
    simp [x_refresh_apply]
  · show x_refresh_step M 0 buf fx fy fz s = _
    rw [x_refresh_step_quorum M 0 buf fx fy fz s h]
    simp [x_refresh_apply]

/-- Machine environment with a quorum that a single arrival does not
complete. -/
def c10_env : MachineEnv ℕ :=
  { quorum := 5, store := fun _ _ _ _ _ d => d + 1,
    enforce := fun d => d * 2, methods := fun d => d }

/-- Concrete ghost-waiting state for the C10 witness. -/
def c10_state : ActorState ℕ :=
  { cycle := 2, time := 0, dt := 0, count := 0, ctrl := Ctrl.ghostWait,
    data := 9 }

/-- Witness for C10: the empty message leaves the data 9 unchanged and only
increments the counter. -/
theorem c10_witness :
    x_refresh_apply c10_env 0 0 0 0 0 (9 : ℕ) = 9 ∧
    comm_step c10_env c10_state (ProtoEv.ghost 0 0 0 0 0) =
      ({ c10_state with count := c10_state.count + 1 }, []) :=
  ⟨(c10_empty_self_message c10_env c10_state 0 0 0 0).1 9,
   (c10_empty_self_message c10_env c10_state 0 0 0 0).2.1 (by decide)⟩

/-- Interior block of a periodic 3×3×3 domain, 8 cells per axis, face-only
refresh. -/
def c3_block_face : BlockConfig :=
  { ibx := 1, iby := 1, ibz := 1, nbx := 3, nby := 3, nbz := 3,
    nx := 8, ny := 8, nz := 8, periodic := true,
    refresh_face := fun i => i == 2 }

/-- Same block with edge refresh also enabled. -/
def c3_block_edge : BlockConfig :=
  { ibx := 1, iby := 1, ibz := 1, nbx := 3, nby := 3, nbz := 3,
    nx := 8, ny := 8, nz := 8, periodic := true,
    refresh_face := fun i => i == 2 || i == 1 }

/-- Same block with corner refresh also enabled. -/
def c3_block_full : BlockConfig :=
  { ibx := 1, iby := 1, ibz := 1, nbx := 3, nby := 3, nbz := 3,
    nx := 8, ny := 8, nz := 8, periodic := true,
    refresh_face := fun _ => true }

/-- Witness for the amended C3 at the three concrete refresh classes. -/
theorem c3_witness :
    count_refresh_ c3_block_face = 1 + 6 ∧
    count_refresh_ c3_block_edge = 1 + 6 + 12 ∧
    count_refresh_ c3_block_full = 1 + 6 + 12 + 8 :=
  ⟨(c3_amended c3_block_face rfl (by decide) (by decide) (by decide)
      (by decide) (by decide) (by decide)).1 rfl rfl rfl,
   (c3_amended c3_block_edge rfl (by decide) (by decide) (by decide)
      (by decide) (by decide) (by decide)).2.1 rfl rfl rfl,
   (c3_amended c3_block_full rfl (by decide) (by decide) (by decide)
      (by decide) (by decide) (by decide)).2.2 rfl rfl rfl⟩

/-- Block with a single cell along x in a periodic domain. -/
def c6_block : BlockConfig :=
  { ibx := 0, iby := 0, ibz := 0, nbx := 3, nby := 3, nbz := 3,
    nx := 1, ny := 8, nz := 8, periodic := true,
    refresh_face := fun i => i == 2 }

/-- Witness for C6 at a concrete single-cell-x block. -/
theorem c6_witness :
    ((∀ d ∈ active_directions c6_block, d.fx = 0) ∧
      ∀ m ∈ refresh_sends c6_block, m.tx = 0) ∧
    count_refresh_ c6_block = 1 + (active_directions c6_block).length :=
  ⟨(c6_single_cell_axis c6_block).1 rfl,
   (c6_single_cell_axis c6_block).2.2.2⟩

/-- Witness for C7 at a concrete interior block of a periodic domain. -/
theorem c7_witness :
    (∀ d ∈ active_directions c3_block_face,
      (refresh_sends c3_block_face).count (refresh_msg c3_block_face d) = 1 ∧
      ((refresh_msg c3_block_face d).dex : ℤ) =
        ((c3_block_face.ibx : ℤ) + d.fx) % (c3_block_face.nbx : ℤ) ∧
      ((refresh_msg c3_block_face d).dey : ℤ) =
        ((c3_block_face.iby : ℤ) + d.fy) % (c3_block_face.nby : ℤ) ∧
      ((refresh_msg c3_block_face d).dez : ℤ) =
        ((c3_block_face.ibz : ℤ) + d.fz) % (c3_block_face.nbz : ℤ) ∧
      (refresh_msg c3_block_face d).tx = -d.fx ∧
      (refresh_msg c3_block_face d).ty = -d.fy ∧
      (refresh_msg c3_block_face d).tz = -d.fz) ∧
    (c3_block_face.periodic = false → ∀ d ∈ active_directions c3_block_face,
      (0 ≤ (c3_block_face.ibx : ℤ) + d.fx ∧
        (c3_block_face.ibx : ℤ) + d.fx < (c3_block_face.nbx : ℤ)) ∧
      (0 ≤ (c3_block_face.iby : ℤ) + d.fy ∧
        (c3_block_face.iby : ℤ) + d.fy < (c3_block_face.nby : ℤ)) ∧
      (0 ≤ (c3_block_face.ibz : ℤ) + d.fz ∧
        (c3_block_face.ibz : ℤ) + d.fz < (c3_block_face.nbz : ℤ))) :=
  c7_refresh_messages c3_block_face (by decide) (by decide) (by decide)
